import Mathlib

/-!
# Verification of the seekoff post-set resolution pipeline

Shallow embedding of `src/lib/elasticReader.js`: the post-set resolver
(`getAllPostIds`), the vote aggregator (`totalVotes`), the stemmed word
matcher (`makeDoesMatch`), the per-record error handling of the index
loader (`indexFile`), and the answer extender
(`extendAnswersFromQuestions` / `extendId`).

Streams read via `readFile` are modelled as Lean lists processed in
order; JavaScript `Set` objects become `Finset Int`, and the JS `Map`
of vote totals becomes a function `Int → Option Int` (`none` = no
entry).  External text-processing libraries (`html2plaintext`,
`porter-stemmer`) are modelled as explicit function parameters; since
either can throw on a given input, the general definitions take
`Except`-valued parameters and the pure case instantiates them with
`Except.ok` compositions.
-/

namespace Seekoff

/-- A parsed row of `Posts.xml` as used by `elasticReader.js`.
Absent text fields are the empty string (the code reads
`lineObject.Title || ''` etc., so `undefined` and `''` behave alike). -/
structure Post where
  Id : Int
  PostTypeId : Int
  ParentId : Int
  Title : String
  Tags : String
  Body : String
deriving DecidableEq, Repr

/-- A parsed row of `PostLinks.xml`. -/
structure PostLink where
  PostId : Int
  RelatedPostId : Int
deriving DecidableEq, Repr

/-- A parsed row of `Votes.xml`.  The code compares
`lineObject.VoteTypeId` against the string constants with loose `==`,
so the numeric value is what matters. -/
structure Vote where
  PostId : Int
  VoteTypeId : Int
deriving DecidableEq, Repr

/-- Constant `POSTTYPEID_QUESTION` from elasticReader.js line 28. -/
def POSTTYPEID_QUESTION : Int := 1
/-- Constant `POSTTYPEID_ANSWER` from elasticReader.js line 29. -/
def POSTTYPEID_ANSWER : Int := 2

/-- The mutable state threaded through `getAllPostIds`: the two sets and
the `documentCount` counter (reset between the two passes). -/
structure ResolveState where
  postIds : Finset Int
  extendedQuestionIds : Finset Int
  documentCount : Nat
deriving DecidableEq

/-- One record of the link-expansion pass (elasticReader.js lines
336-347): each endpoint of the link is tested against the original
`questionIds` seed set (which is never mutated), and when it is a seed
member the *other* endpoint is added to both `postIds` and
`extendedQuestionIds`, bumping `documentCount` each time. -/
def linkStep (questionIds : Finset Int) (s : ResolveState) (l : PostLink) :
    ResolveState :=
  let s1 :=
    if l.PostId ∈ questionIds then
      { s with
        documentCount := s.documentCount + 1
        postIds := insert l.RelatedPostId s.postIds
        extendedQuestionIds := insert l.RelatedPostId s.extendedQuestionIds }
    else s
  if l.RelatedPostId ∈ questionIds then
    { s1 with
      documentCount := s1.documentCount + 1
      postIds := insert l.PostId s1.postIds
      extendedQuestionIds := insert l.PostId s1.extendedQuestionIds }
  else s1

/-- The whole link-expansion pass: fold `linkStep` over the PostLinks
stream in order. -/
def linkPass (questionIds : Finset Int) (s : ResolveState)
    (links : List PostLink) : ResolveState :=
  links.foldl (linkStep questionIds) s

/-- One record of the Post-stream pass (elasticReader.js lines 364-380):
a Question currently in `extendedQuestionIds` that the exclude matcher
matches is deleted from both sets; afterwards, an Answer whose
`ParentId` is (still) in `extendedQuestionIds` and that the matcher
does not match has its id added to `postIds` and bumps
`documentCount`. -/
def postStep (shouldReject : Post → Bool) (s : ResolveState) (p : Post) :
    ResolveState :=
  let s1 :=
    if p.PostTypeId = POSTTYPEID_QUESTION ∧
        p.Id ∈ s.extendedQuestionIds ∧ shouldReject p = true then
      { s with
        extendedQuestionIds := s.extendedQuestionIds.erase p.Id
        postIds := s.postIds.erase p.Id }
    else s
  if p.PostTypeId = POSTTYPEID_ANSWER ∧
      p.ParentId ∈ s1.extendedQuestionIds ∧ shouldReject p = false then
    { s1 with
      postIds := insert p.Id s1.postIds
      documentCount := s1.documentCount + 1 }
  else s1

/-- The whole Post-stream pass: fold `postStep` over the Posts stream in
order. -/
def postPass (shouldReject : Post → Bool) (s : ResolveState)
    (posts : List Post) : ResolveState :=
  posts.foldl (postStep shouldReject) s

/-- Function `getAllPostIds` (elasticReader.js lines 314-390): seed all three
sets from `Questions.json`, run the link-expansion pass, reset
`documentCount`, run the Post pass, and return
`[postIds, documentCount, extendedQuestionIds]`. -/
def getAllPostIds (seed : Finset Int) (links : List PostLink)
    (posts : List Post) (shouldReject : Post → Bool) :
    Finset Int × Nat × Finset Int :=
  let s0 : ResolveState := ⟨seed, seed, 0⟩
  let s1 := linkPass seed s0 links
  let s2 := postPass shouldReject { s1 with documentCount := 0 } posts
  (s2.postIds, s2.documentCount, s2.extendedQuestionIds)

/-- The net effect of one vote on its post's counter
(elasticReader.js lines 451-455): +1 for upmod (2), -1 for
downmod (3), 0 otherwise. -/
def voteDelta (v : Vote) : Int :=
  if v.VoteTypeId = 2 then 1 else if v.VoteTypeId = 3 then -1 else 0

/-- One record of `totalVotes` (elasticReader.js lines 443-458): ignore
votes whose `PostId` is not wanted; otherwise read the current counter
(initialising to 0 the first time the id is seen), apply the delta, and
store the entry back (the entry is stored even when the delta is 0). -/
def voteStep (postIds : Finset Int) (m : Int → Option Int) (v : Vote) :
    Int → Option Int :=
  if v.PostId ∈ postIds then
    let count0 := (m v.PostId).getD 0
    let count :=
      if v.VoteTypeId = 2 then count0 + 1
      else if v.VoteTypeId = 3 then count0 - 1
      else count0
    fun k => if k = v.PostId then some count else m k
  else m

/-- Function `totalVotes` (elasticReader.js lines 436-467): fold `voteStep` over
the vote stream starting from the empty map. -/
def totalVotes (votes : List Vote) (postIds : Finset Int) :
    Int → Option Int :=
  votes.foldl (voteStep postIds) (fun _ => none)

/-! ## The stemmed word matcher (`makeDoesMatch`)

The matcher calls two external libraries, `html2plaintext` and the
porter stemmer.  Both can throw on a given input, so they are modelled
as `Except`-valued parameters bundled in `TextLibs`; the `try { ... }
catch` of the returned closure becomes a `match` on the `Except` value
of the try-block body. -/

/-- The external text-processing collaborators of `makeDoesMatch`:
`h2p` models `html2plaintext`, `stem` models the porter stemmer.  An
`Except.error` models the library throwing on that input. -/
structure TextLibs where
  h2p : String → Except String String
  stem : String → Except String String

/-- A character the tokenizer keeps: the JS splits on the regex
`[^a-z0-9-]` after lower-casing. -/
def isWordChar (c : Char) : Bool :=
  (Char.ofNat 97 ≤ c && c ≤ Char.ofNat 122) ||
  (Char.ofNat 48 ≤ c && c ≤ Char.ofNat 57) || c = Char.ofNat 45

/-- JavaScript `String.prototype.toLowerCase`, character by character
(ASCII).  The byte-position based library `String.toLower` computes the
same string but is defined by well-founded recursion, which the kernel
cannot evaluate, so the embedding uses the character-list form. -/
def lowerString (s : String) : String :=
  String.mk (s.data.map Char.toLower)

/-- Helper for `splitChars`: walk the character list, closing the
current token at every separator. -/
def splitCharsAux (p : Char → Bool) : List Char → List Char → List String
  | [], acc => [String.mk acc.reverse]
  | c :: cs, acc =>
    if p c then String.mk acc.reverse :: splitCharsAux p cs []
    else splitCharsAux p cs (c :: acc)

/-- JavaScript `String.prototype.split` against a single-character
class: adjacent, leading or trailing separators produce empty tokens,
and the empty string splits to `[""]`.  This is also the behaviour of
the library `String.split`, which however is defined by well-founded
recursion and so is opaque to the kernel. -/
def splitChars (s : String) (p : Char → Bool) : List String :=
  splitCharsAux p s.data []

/-- Tokenization of `stemmedWords` (elasticReader.js line 108-110):
lower-case the text and split on every character outside `[a-z0-9-]`. -/
def splitTokens (text : String) : List String :=
  splitChars (lowerString text) (fun c => !(isWordChar c))

/-- Helper `stemmedWords` of `makeDoesMatch` (elasticReader.js lines
106-124): stem every token, collect the stemmed tokens into a set, then
for each stemmed token containing a hyphen also stem its hyphen-split
parts and add those. -/
def stemmedWords (libs : TextLibs) (text : String) :
    Except String (Finset String) := do
  let wordArray ← (splitTokens text).mapM libs.stem
  let wordSet := wordArray.foldl (fun s w => insert w s) (∅ : Finset String)
  let wordSet ← wordArray.foldlM (fun s w =>
    if w.data.contains (Char.ofNat 45) then
      (splitChars w (fun c => c = Char.ofNat 45)).foldlM (fun s sub => do
        let st ← libs.stem sub
        pure (insert st s)) s
    else pure s) wordSet
  pure wordSet

/-- The body of the closure returned by `makeDoesMatch`
(elasticReader.js lines 134-154), i.e. the contents of its `try`
block: build the pseudo-title for answers when excluding, compute the
three per-category word sets (title words after HTML stripping, tag
words, and — only for exclusion matchers — body words after HTML
stripping), and test whether any query word occurs in any of them. -/
def matchBody (libs : TextLibs) (testWords : List String)
    (isAccept : Bool) (p : Post) : Except String Bool := do
  let textBody := p.Body
  let title :=
    if isAccept = false ∧ p.Title = "" ∧ textBody ≠ "" then
      (if textBody.length > 60 then
        String.mk (textBody.data.take 60) ++ "..."
      else textBody)
    else p.Title
  let titleWords ←
    if title ≠ "" then do
      let plain ← libs.h2p title
      let s ← stemmedWords libs plain
      pure (some s)
    else pure none
  let tagWords ←
    if p.Tags ≠ "" then do
      let s ← stemmedWords libs p.Tags
      pure (some s)
    else pure none
  let bodyWords ←
    if isAccept then pure none
    else if textBody ≠ "" then do
      let plain ← libs.h2p textBody
      let s ← stemmedWords libs plain
      pure (some s)
    else pure none
  pure (testWords.any (fun word =>
    (titleWords.elim false (fun s => word ∈ s)) ||
    (tagWords.elim false (fun s => word ∈ s)) ||
    (bodyWords.elim false (fun s => word ∈ s))))

/-- Function `makeDoesMatch` (elasticReader.js lines 104-160).  An empty
query returns the constant `isAccept` function.  Otherwise the query is
lower-cased, split on single spaces and stemmed (this happens outside
the returned closure, so a stemmer failure here fails the whole call),
and the returned matcher runs `matchBody` under a `try`/`catch` whose
catch branch returns `true`. -/
def makeDoesMatch (libs : TextLibs) (testString : String)
    (isAccept : Bool) : Except String (Post → Bool) :=
  if testString = "" then Except.ok (fun _ => isAccept)
  else do
    let testWords ←
      (splitChars (lowerString testString)
        (fun c => c = Char.ofNat 32)).mapM libs.stem
    pure (fun p =>
      match matchBody libs testWords isAccept p with
      | Except.ok b => b
      | Except.error _ => true)

/-- Extract the matcher from a successful `makeDoesMatch` call; a failed
call (query-time stemmer failure, which in JS would throw out of
`makeDoesMatch` itself) yields the constant-`false` function so that
concrete statements stay total. -/
def runMatcher (e : Except String (Post → Bool)) (p : Post) : Bool :=
  match e with
  | Except.ok m => m p
  | Except.error _ => false

/-- Infallible instantiation of the external libraries from pure
functions: no input throws. -/
def pureLibs (h2p stem : String → String) : TextLibs :=
  ⟨fun s => Except.ok (h2p s), fun s => Except.ok (stem s)⟩

/-- Modelled from the spec: `html2plaintext` is an external package
(absent from the repository) that strips HTML markup from a string.
Every concrete string evaluated in this file is already plain text with
no markup, entities or extra whitespace, on which HTML stripping is the
identity; so the concrete model is the identity function.  The general
theorems quantify over an arbitrary `h2p` instead of using this
model. -/
def h2pModel : String → String := fun s => s

/-- Modelled from the spec: the porter stemmer (external
`porter-stemmer` package, absent from the repository).  The package
returns any token of fewer than 3 characters unchanged, and every
concrete token evaluated in this file has at most 2 characters, so the
concrete model is the identity function.  The general theorems
quantify over an arbitrary `stem` instead of using this model. -/
def stemModel : String → String := fun s => s

/-! ## Per-record error handling of the index loader (`indexFile`) -/

/-- The observable outcome of one streaming write pass: the records
successfully written to the sink and the records whose failure was
logged (with the error message).  Everything else was silently
skipped. -/
structure IndexState (α : Type) where
  written : List α
  logged : List (α × String)
deriving DecidableEq

/-- The starts-with test of `indexFile` line 84
(`err.message.startsWith('Invalid Id')`), over the character list (the
byte-based library version is equationally opaque to the kernel). -/
def strStartsWith (s pre : String) : Bool :=
  pre.data.isPrefixOf s.data

/-- The per-record callback of `indexFile` (elasticReader.js lines
78-93), with the sink write abstracted as `put`: a successful put is
recorded; a failing put whose error message starts with `"Invalid Id"`
is silently skipped; any other failing put is logged together with the
offending record.  In every case the callback returns and the stream
continues. -/
def indexFileStep {α : Type} (put : α → Except String Unit)
    (s : IndexState α) (row : α) : IndexState α :=
  match put row with
  | Except.ok _ => { s with written := s.written ++ [row] }
  | Except.error msg =>
    if strStartsWith msg "Invalid Id" then s
    else { s with logged := s.logged ++ [(row, msg)] }

/-- The streaming write pass of `indexFile`: fold the per-record
callback over the whole record stream. -/
def indexFilePass {α : Type} (put : α → Except String Unit)
    (rows : List α) : IndexState α :=
  rows.foldl (indexFileStep put) ⟨[], []⟩

/-- A `sepost` row as seen by the `indexFromPostIds` callback: its own
id, the owner recorded into `userIds`, and the `VoteCount` field the
callback attaches. -/
structure SePostRow where
  Id : Int
  OwnerUserId : Int
  VoteCount : Int
deriving DecidableEq, Repr

/-- The state `indexFromPostIds` mutates per admitted record: the
`documentCount` counter and the accumulated `userIds`.  Note there is
no log component: this function performs no per-record logging. -/
structure LoadState where
  documentCount : Nat
  userIds : Finset Int
deriving DecidableEq

/-- Line 262 of `indexFromPostIds`:
`lineObject.VoteCount = voteTotals.get(lineObject.Id) || 0`, applied
only when a vote-totals map was computed. -/
def attachVoteCount (voteTotals : Option (Int → Option Int))
    (row : SePostRow) : SePostRow :=
  match voteTotals with
  | some vt => { row with VoteCount := (vt row.Id).getD 0 }
  | none => row

/-- The per-record callback of `indexFromPostIds` for the `sepost` type
(elasticReader.js lines 257-272): a record whose `Id` is not in
`postIds` is skipped (the callback resolves with nothing); an admitted
record bumps `documentCount`, gets `VoteCount` attached, has its
`OwnerUserId` recorded into `userIds`, and the callback returns the
sink write's result verbatim — `return elasticClient.putDocument(...)`
at line 270 sits in no `try`/`catch`, makes no "Invalid Id"
distinction and logs nothing, so a write failure propagates out of the
callback as the error itself. -/
def indexFromPostIdsStep (postIds : Finset Int)
    (voteTotals : Option (Int → Option Int))
    (put : SePostRow → Except String Unit)
    (s : LoadState) (row : SePostRow) :
    LoadState × Except String (Option Unit) :=
  if row.Id ∈ postIds then
    ({ documentCount := s.documentCount + 1
       userIds := insert row.OwnerUserId s.userIds },
     (put (attachVoteCount voteTotals row)).map some)
  else (s, Except.ok none)

/-! ## The answer extender (`extendAnswersFromQuestions` / `extendId`)

The sink (`elasticClient`, a module of this repository that is not
under `src/`) is modelled from the spec as a list of stored post
documents addressed by `Id`: `search` with a `ParentId` term query
returns the (up to 1000) stored documents with that parent,
`getDocument` finds the document with that id, and `putDocument`
overwrites the stored document with the same id. -/

/-- A post document as stored in the sink, with the three fields that
`extendId` copies from the question (`Tags`, `ViewCount`,
`QuestionTitle`). -/
structure StoredPost where
  Id : Int
  PostTypeId : Int
  ParentId : Int
  Tags : String
  ViewCount : Int
  Title : String
  QuestionTitle : String
deriving DecidableEq, Repr

/-- Modelled from the spec: `elasticClient.promisePutDocument` on the
sink, which overwrites the stored document carrying the same id. -/
def putStored (sink : List StoredPost) (d : StoredPost) :
    List StoredPost :=
  sink.map (fun x => if x.Id = d.Id then d else x)

/-- Function `extendId` (elasticReader.js lines 33-69): search the sink
for up to 1000 documents whose `ParentId` is `questionId`; if any are
found, fetch the question document itself, and if it exists and is of
Question kind, copy its `Tags`, `ViewCount` and `Title` (as
`QuestionTitle`) onto each answer and write each answer back, counting
one `localHit` per answer.  Returns the hit count and the updated
sink. -/
def extendId (sink : List StoredPost) (questionId : Int) :
    Nat × List StoredPost :=
  let answers := (sink.filter (fun d => d.ParentId = questionId)).take 1000
  if answers.length ≠ 0 then
    match sink.find? (fun d => d.Id = questionId) with
    | some question =>
      if question.PostTypeId = POSTTYPEID_QUESTION then
        let extended := answers.map (fun a =>
          { a with
            Tags := question.Tags
            ViewCount := question.ViewCount
            QuestionTitle := question.Title })
        (answers.length, extended.foldl putStored sink)
      else (0, sink)
    | none => (0, sink)
  else (0, sink)

/-- The per-question loop body of `extendAnswersFromQuestions`
(elasticReader.js lines 180-196), sequentialised: run `extendId` for
each question id in turn, threading the sink and accumulating the
`totalHits` counter (`totalHits += results`). -/
def extendAllQuestions (sink : List StoredPost) (questionIds : List Int) :
    Nat × List StoredPost :=
  questionIds.foldl
    (fun acc qId =>
      let r := extendId acc.2 qId
      (acc.1 + r.1, r.2))
    (0, sink)

/-- The number of promises still in `promiseBatch` when
`extendAnswersFromQuestions` returns: `if (++linesRead % 20 == 0)`
awaits and resets the batch *before* pushing the 20th, 40th, ... id,
so after `n` ids, for `n < 20` no reset has happened and the batch
holds all `n` promises, while for `n ≥ 20` it holds the id of the last
reset point plus the `n % 20` ids after it. -/
def finalBatchSize (n : Nat) : Nat :=
  if n < 20 then n else n % 20 + 1

/-- The value `extendAnswersFromQuestions` (elasticReader.js lines
171-198) actually resolves to: `Promise.all(promiseBatch)`, an array
holding one entry per promise of the final batch, each the result of a
`.then(results => { totalHits += results; })` callback — i.e.
`undefined`, modelled as `Unit`.  The accumulated `totalHits` value is
not part of the resolved value. -/
def extendAnswersResolvedValue (questionIds : List Int) : List Unit :=
  List.replicate (finalBatchSize questionIds.length) ()

/-! ## Lemmas about the vote aggregator -/

lemma voteStep_apply_self (w : Finset Int) (m : Int → Option Int)
    (v : Vote) (h : v.PostId ∈ w) :
    voteStep w m v v.PostId = some ((m v.PostId).getD 0 + voteDelta v) := by
  unfold voteStep voteDelta
  simp only [if_pos h, if_pos rfl]
  split_ifs <;> simp <;> ring

lemma voteStep_apply_ne (w : Finset Int) (m : Int → Option Int)
    (v : Vote) (k : Int) (h : k ≠ v.PostId) :
    voteStep w m v k = m k := by
  unfold voteStep
  by_cases h1 : v.PostId ∈ w
  · simp only [if_pos h1]
    simp [if_neg h]
  · simp [if_neg h1]

lemma voteStep_apply_not_mem (w : Finset Int) (m : Int → Option Int)
    (v : Vote) (k : Int) (h : v.PostId ∉ w) :
    voteStep w m v k = m k := by
  unfold voteStep
  simp [if_neg h]

/-- Full characterisation of a `voteStep` fold from an arbitrary map:
a key gets an entry exactly when it is wanted and mentioned, and the
entry is the starting value (defaulting to 0) plus the sum of the
deltas of its votes. -/
lemma voteFold_char (w : Finset Int) (vs : List Vote) :
    ∀ (m : Int → Option Int) (k : Int),
      vs.foldl (voteStep w) m k =
        if k ∈ w ∧ ∃ v ∈ vs, v.PostId = k then
          some ((m k).getD 0 +
            ((vs.filter (fun v => decide (v.PostId = k))).map voteDelta).sum)
        else m k := by
  induction vs with
  | nil => intro m k; simp
  | cons v vs ih =>
    intro m k
    rw [List.foldl_cons, ih]
    by_cases hkw : k ∈ w
    · by_cases hvk : v.PostId = k
      · have hvw : v.PostId ∈ w := hvk ▸ hkw
        have hstep : voteStep w m v k = some ((m k).getD 0 + voteDelta v) := by
          rw [← hvk, voteStep_apply_self w m v hvw]
        by_cases hex : ∃ x ∈ vs, x.PostId = k
        · have hcons : ∃ x ∈ v :: vs, x.PostId = k := by
            obtain ⟨x, hx, hxk⟩ := hex
            exact ⟨x, List.mem_cons_of_mem _ hx, hxk⟩
          rw [if_pos ⟨hkw, hex⟩, if_pos ⟨hkw, hcons⟩, hstep]
          simp [List.filter_cons, hvk, add_assoc]
        · have hcons : ∃ x ∈ v :: vs, x.PostId = k :=
            ⟨v, List.mem_cons_self v vs, hvk⟩
          rw [if_neg (fun hc => hex hc.2), if_pos ⟨hkw, hcons⟩, hstep]
          have hnil : vs.filter (fun x => decide (x.PostId = k)) = [] := by
            rw [List.filter_eq_nil_iff]
            intro x hx
            simp only [decide_eq_true_eq]
            exact fun hxk => hex ⟨x, hx, hxk⟩
          simp [List.filter_cons, hvk, hnil]
      · have hstep : voteStep w m v k = m k :=
          voteStep_apply_ne w m v k (fun h => hvk h.symm)
        rw [hstep]
        have hiff : (∃ x ∈ v :: vs, x.PostId = k) ↔ ∃ x ∈ vs, x.PostId = k := by
          constructor
          · rintro ⟨x, hx, hxk⟩
            rcases List.mem_cons.mp hx with h | h
            · exact absurd (h ▸ hxk) hvk
            · exact ⟨x, h, hxk⟩
          · rintro ⟨x, hx, hxk⟩
            exact ⟨x, List.mem_cons_of_mem _ hx, hxk⟩
        have hfil : (v :: vs).filter (fun x => decide (x.PostId = k)) =
            vs.filter (fun x => decide (x.PostId = k)) := by
          simp [List.filter_cons, hvk]
        rw [hfil]
        by_cases hex : ∃ x ∈ vs, x.PostId = k
        · rw [if_pos ⟨hkw, hex⟩, if_pos ⟨hkw, hiff.mpr hex⟩]
        · rw [if_neg (fun hc => hex hc.2), if_neg (fun hc => hex (hiff.mp hc.2))]
    · have hstep : voteStep w m v k = m k := by
        by_cases hvw : v.PostId ∈ w
        · exact voteStep_apply_ne w m v k (fun h => hkw (h ▸ hvw))
        · exact voteStep_apply_not_mem w m v k hvw
      rw [hstep, if_neg (fun hc => hkw hc.1), if_neg (fun hc => hkw hc.1)]

/-- C3.  `totalVotes` ignores every vote whose `PostId` is not wanted
(such votes never create an entry); each wanted id seen at least once
has an explicit entry — registered at 0 before the first delta — whose
value is the running sum of +1 per upmod (2), -1 per downmod (3) and 0
per any other `VoteTypeId`; a wanted id never mentioned in the stream
has no entry. -/
theorem C3_totalVotes_spec (votes : List Vote) (wanted : Finset Int)
    (k : Int) :
    totalVotes votes wanted k =
      if k ∈ wanted ∧ ∃ v ∈ votes, v.PostId = k then
        some (((votes.filter (fun v => decide (v.PostId = k))).map
          voteDelta).sum)
      else none := by
  rw [totalVotes, voteFold_char]
  simp

/-- C7.  `totalVotes` is order-independent: permuting the vote stream
yields the same result map (same entries present, same net score for
every key). -/
theorem C7_totalVotes_perm_invariant (wanted : Finset Int)
    (l1 l2 : List Vote) (hp : l1.Perm l2) (k : Int) :
    totalVotes l1 wanted k = totalVotes l2 wanted k := by
  rw [totalVotes, totalVotes, voteFold_char, voteFold_char]
  have hmem : (∃ v ∈ l1, v.PostId = k) ↔ ∃ v ∈ l2, v.PostId = k := by
    constructor
    · rintro ⟨v, hv, hvk⟩; exact ⟨v, hp.mem_iff.mp hv, hvk⟩
    · rintro ⟨v, hv, hvk⟩; exact ⟨v, hp.mem_iff.mpr hv, hvk⟩
  have hsum : ((l1.filter (fun v => decide (v.PostId = k))).map
      voteDelta).sum =
      ((l2.filter (fun v => decide (v.PostId = k))).map voteDelta).sum :=
    ((hp.filter _).map voteDelta).sum_eq
  rw [hsum]
  by_cases hkw : k ∈ wanted
  · by_cases hex : ∃ v ∈ l1, v.PostId = k
    · rw [if_pos ⟨hkw, hex⟩, if_pos ⟨hkw, hmem.mp hex⟩]
    · rw [if_neg (fun hc => hex hc.2), if_neg (fun hc => hex (hmem.mpr hc.2))]
  · rw [if_neg (fun hc => hkw hc.1), if_neg (fun hc => hkw hc.1)]

/-- Witness for C7 at a concrete permutation of the spec's vote
example. -/
theorem C7_witness :
    totalVotes [⟨1, 2⟩, ⟨1, 2⟩, ⟨1, 3⟩, ⟨2, 2⟩] ({1, 2} : Finset Int) 1 =
      totalVotes [⟨2, 2⟩, ⟨1, 3⟩, ⟨1, 2⟩, ⟨1, 2⟩] ({1, 2} : Finset Int) 1 :=
  C7_totalVotes_perm_invariant ({1, 2} : Finset Int)
    [⟨1, 2⟩, ⟨1, 2⟩, ⟨1, 3⟩, ⟨2, 2⟩] [⟨2, 2⟩, ⟨1, 3⟩, ⟨1, 2⟩, ⟨1, 2⟩]
    (by decide) 1

/-! ## Lemmas about the link-expansion pass -/

/-- The contribution condition of one link for an id `x`: some endpoint
is in the seed and `x` is the other endpoint. -/
def linkAdds (seed : Finset Int) (l : PostLink) (x : Int) : Prop :=
  (l.PostId ∈ seed ∧ x = l.RelatedPostId) ∨
  (l.RelatedPostId ∈ seed ∧ x = l.PostId)

instance (seed : Finset Int) (l : PostLink) (x : Int) :
    Decidable (linkAdds seed l x) := by
  unfold linkAdds; infer_instance

lemma mem_linkStep_postIds (seed : Finset Int) (s : ResolveState)
    (l : PostLink) (x : Int) :
    x ∈ (linkStep seed s l).postIds ↔ x ∈ s.postIds ∨ linkAdds seed l x := by
  unfold linkStep linkAdds
  split_ifs with h1 h2 h2 <;> simp [Finset.mem_insert, h1, h2] <;> tauto

lemma mem_linkStep_ext (seed : Finset Int) (s : ResolveState)
    (l : PostLink) (x : Int) :
    x ∈ (linkStep seed s l).extendedQuestionIds ↔
      x ∈ s.extendedQuestionIds ∨ linkAdds seed l x := by
  unfold linkStep linkAdds
  split_ifs with h1 h2 h2 <;> simp [Finset.mem_insert, h1, h2] <;> tauto

/-- Membership characterisation of the whole link-expansion pass, for
both output sets: an id is present after the pass exactly when it was
present before, or some link of the stream contributes it relative to
the (immutable) seed. -/
lemma mem_linkPass (seed : Finset Int) (links : List PostLink) :
    ∀ (s : ResolveState) (x : Int),
      (x ∈ (linkPass seed s links).postIds ↔
        x ∈ s.postIds ∨ ∃ l ∈ links, linkAdds seed l x) ∧
      (x ∈ (linkPass seed s links).extendedQuestionIds ↔
        x ∈ s.extendedQuestionIds ∨ ∃ l ∈ links, linkAdds seed l x) := by
  induction links with
  | nil => intro s x; simp [linkPass]
  | cons l ls ih =>
    intro s x
    have hpass : linkPass seed s (l :: ls) =
        linkPass seed (linkStep seed s l) ls := rfl
    rw [hpass]
    obtain ⟨ih1, ih2⟩ := ih (linkStep seed s l) x
    constructor
    · rw [ih1, mem_linkStep_postIds]
      simp only [List.mem_cons]
      constructor
      · rintro ((h | h) | ⟨l', hl', h⟩)
        · exact Or.inl h
        · exact Or.inr ⟨l, Or.inl rfl, h⟩
        · exact Or.inr ⟨l', Or.inr hl', h⟩
      · rintro (h | ⟨l', (rfl | hl'), h⟩)
        · exact Or.inl (Or.inl h)
        · exact Or.inl (Or.inr h)
        · exact Or.inr ⟨l', hl', h⟩
    · rw [ih2, mem_linkStep_ext]
      simp only [List.mem_cons]
      constructor
      · rintro ((h | h) | ⟨l', hl', h⟩)
        · exact Or.inl h
        · exact Or.inr ⟨l, Or.inl rfl, h⟩
        · exact Or.inr ⟨l', Or.inr hl', h⟩
      · rintro (h | ⟨l', (rfl | hl'), h⟩)
        · exact Or.inl (Or.inl h)
        · exact Or.inl (Or.inr h)
        · exact Or.inr ⟨l', hl', h⟩

/-- C2.  In the link-expansion pass, seed membership is tested against
the immutable `questionIds` seed only: an id belongs to an output set
exactly when it already belonged to the starting set or some link of
the stream has one endpoint in the original seed and the id as the
other endpoint.  In particular the outcome does not depend on the
additions the pass makes to `postIds` and `extendedQuestionIds` while
it runs. -/
theorem C2_link_expansion_snapshot_semantics (seed : Finset Int)
    (links : List PostLink) (s : ResolveState) (x : Int) :
    (x ∈ (linkPass seed s links).postIds ↔
      x ∈ s.postIds ∨ ∃ l ∈ links,
        (l.PostId ∈ seed ∧ x = l.RelatedPostId) ∨
        (l.RelatedPostId ∈ seed ∧ x = l.PostId)) ∧
    (x ∈ (linkPass seed s links).extendedQuestionIds ↔
      x ∈ s.extendedQuestionIds ∨ ∃ l ∈ links,
        (l.PostId ∈ seed ∧ x = l.RelatedPostId) ∨
        (l.RelatedPostId ∈ seed ∧ x = l.PostId)) :=
  mem_linkPass seed links s x

/-- C8.  The link-expansion pass is idempotent on both id sets: running
it a second time over the same stream with the same seed, starting
from the first run's output, changes neither `extendedQuestionIds` nor
`postIds`. -/
theorem C8_link_expansion_idempotent (seed : Finset Int)
    (links : List PostLink) :
    ResolveState.extendedQuestionIds
        (linkPass seed (linkPass seed ⟨seed, seed, 0⟩ links) links) =
      (linkPass seed ⟨seed, seed, 0⟩ links).extendedQuestionIds ∧
    ResolveState.postIds
        (linkPass seed (linkPass seed ⟨seed, seed, 0⟩ links) links) =
      (linkPass seed ⟨seed, seed, 0⟩ links).postIds := by
  constructor
  · ext x
    rw [(mem_linkPass seed links _ x).2, (mem_linkPass seed links _ x).2]
    tauto
  · ext x
    rw [(mem_linkPass seed links _ x).1, (mem_linkPass seed links _ x).1]
    tauto

/-! ## Lemmas about the Post-stream pass -/

/-- A Question present in `extendedQuestionIds` that the exclude
matcher matches is removed from both sets and changes nothing else. -/
lemma postStep_reject (shouldReject : Post → Bool) (s : ResolveState)
    (q : Post) (h1 : q.PostTypeId = POSTTYPEID_QUESTION)
    (h2 : q.Id ∈ s.extendedQuestionIds) (h3 : shouldReject q = true) :
    postStep shouldReject s q =
      { s with
        extendedQuestionIds := s.extendedQuestionIds.erase q.Id
        postIds := s.postIds.erase q.Id } := by
  simp [postStep, POSTTYPEID_QUESTION, POSTTYPEID_ANSWER, h1, h2, h3]

/-- An Answer whose parent is in `extendedQuestionIds` and that the
matcher does not match is admitted: its id joins `postIds` and the
counter is bumped; `extendedQuestionIds` is unchanged. -/
lemma postStep_admit (shouldReject : Post → Bool) (s : ResolveState)
    (a : Post) (h1 : a.PostTypeId = POSTTYPEID_ANSWER)
    (h2 : a.ParentId ∈ s.extendedQuestionIds)
    (h3 : shouldReject a = false) :
    postStep shouldReject s a =
      { s with
        postIds := insert a.Id s.postIds
        documentCount := s.documentCount + 1 } := by
  simp [postStep, POSTTYPEID_QUESTION, POSTTYPEID_ANSWER, h1, h2, h3]

/-- An Answer whose parent is not in `extendedQuestionIds` at visit
time leaves the state unchanged. -/
lemma postStep_skip_answer (shouldReject : Post → Bool)
    (s : ResolveState) (a : Post) (h1 : a.PostTypeId = POSTTYPEID_ANSWER)
    (h2 : a.ParentId ∉ s.extendedQuestionIds) :
    postStep shouldReject s a = s := by
  simp [postStep, POSTTYPEID_QUESTION, POSTTYPEID_ANSWER, h1, h2]

/-- One step of the Post pass never adds to `extendedQuestionIds`. -/
lemma postStep_ext_subset (shouldReject : Post → Bool)
    (s : ResolveState) (p : Post) :
    (postStep shouldReject s p).extendedQuestionIds ⊆
      s.extendedQuestionIds := by
  unfold postStep
  by_cases hA : p.PostTypeId = POSTTYPEID_QUESTION ∧
      p.Id ∈ s.extendedQuestionIds ∧ shouldReject p = true
  · simp only [if_pos hA]
    split_ifs with hB <;> simp [Finset.erase_subset]
  · simp only [if_neg hA]
    split_ifs with hB <;> simp [Finset.erase_subset]

/-- The Post pass never adds to `extendedQuestionIds`: after any number
of records the set is contained in the starting one. -/
lemma postPass_ext_subset (shouldReject : Post → Bool)
    (posts : List Post) :
    ∀ s : ResolveState,
      (postPass shouldReject s posts).extendedQuestionIds ⊆
        s.extendedQuestionIds := by
  induction posts with
  | nil => intro s; exact Finset.Subset.refl _
  | cons p ps ih =>
    intro s
    exact (ih (postStep shouldReject s p)).trans
      (postStep_ext_subset shouldReject s p)

/-- One step of the Post pass removes an id from `postIds` only when
that id is a rejected Question's own id. -/
lemma postStep_postIds_persist (shouldReject : Post → Bool)
    (s : ResolveState) (p : Post) (x : Int) (hx : x ∈ s.postIds)
    (hp : ¬(p.PostTypeId = POSTTYPEID_QUESTION ∧ p.Id = x ∧
      shouldReject p = true)) :
    x ∈ (postStep shouldReject s p).postIds := by
  unfold postStep
  by_cases hA : p.PostTypeId = POSTTYPEID_QUESTION ∧
      p.Id ∈ s.extendedQuestionIds ∧ shouldReject p = true
  · have hne : x ≠ p.Id := fun he => hp ⟨hA.1, he.symm, hA.2.2⟩
    simp only [if_pos hA]
    split_ifs with hB
    · exact Finset.mem_insert_of_mem (Finset.mem_erase_of_ne_of_mem hne hx)
    · exact Finset.mem_erase_of_ne_of_mem hne hx
  · simp only [if_neg hA]
    split_ifs with hB
    · exact Finset.mem_insert_of_mem hx
    · exact hx

/-- Over the whole Post pass: an id in `postIds` stays there unless
some record of the stream is a Question with that very id that the
matcher rejects. -/
lemma postPass_postIds_persist (shouldReject : Post → Bool)
    (posts : List Post) :
    ∀ (s : ResolveState) (x : Int), x ∈ s.postIds →
      (∀ p ∈ posts, ¬(p.PostTypeId = POSTTYPEID_QUESTION ∧ p.Id = x ∧
        shouldReject p = true)) →
      x ∈ (postPass shouldReject s posts).postIds := by
  induction posts with
  | nil => intro s x hx _; exact hx
  | cons p ps ih =>
    intro s x hx hall
    exact ih (postStep shouldReject s p) x
      (postStep_postIds_persist shouldReject s p x hx
        (hall p (List.mem_cons_self p ps)))
      (fun p' hp' => hall p' (List.mem_cons_of_mem _ hp'))

/-- C1.  In the Post-stream pass: (a) a Question in
`extendedQuestionIds` at visit time that the exclude matcher matches is
removed from both `extendedQuestionIds` and `postIds`; (b) an Answer
whose `ParentId` is in `extendedQuestionIds` at visit time that the
matcher does not match has its id added to `postIds` and increments the
admitted-answer count; (c) an Answer whose parent is absent from
`extendedQuestionIds` (as after the parent's rejection) changes nothing
— and the pass never re-adds ids to `extendedQuestionIds`, so a
rejected parent stays rejected; (d) an id already in `postIds` (such as
an answer admitted before its parent's rejection) is never removed by
the remainder of the pass unless some stream record is a rejected
Question carrying that same id. -/
theorem C1_post_pass_rejection_and_admission
    (shouldReject : Post → Bool) :
    (∀ (s : ResolveState) (q : Post),
      q.PostTypeId = POSTTYPEID_QUESTION → q.Id ∈ s.extendedQuestionIds →
      shouldReject q = true →
      postStep shouldReject s q =
        { s with
          extendedQuestionIds := s.extendedQuestionIds.erase q.Id
          postIds := s.postIds.erase q.Id }) ∧
    (∀ (s : ResolveState) (a : Post),
      a.PostTypeId = POSTTYPEID_ANSWER →
      a.ParentId ∈ s.extendedQuestionIds → shouldReject a = false →
      postStep shouldReject s a =
        { s with
          postIds := insert a.Id s.postIds
          documentCount := s.documentCount + 1 }) ∧
    (∀ (s : ResolveState) (a : Post),
      a.PostTypeId = POSTTYPEID_ANSWER →
      a.ParentId ∉ s.extendedQuestionIds →
      postStep shouldReject s a = s) ∧
    (∀ (posts : List Post) (s : ResolveState),
      (postPass shouldReject s posts).extendedQuestionIds ⊆
        s.extendedQuestionIds) ∧
    (∀ (posts : List Post) (s : ResolveState) (x : Int),
      x ∈ s.postIds →
      (∀ p ∈ posts, ¬(p.PostTypeId = POSTTYPEID_QUESTION ∧ p.Id = x ∧
        shouldReject p = true)) →
      x ∈ (postPass shouldReject s posts).postIds) :=
  ⟨fun s q => postStep_reject shouldReject s q,
   fun s a => postStep_admit shouldReject s a,
   fun s a => postStep_skip_answer shouldReject s a,
   fun posts s => postPass_ext_subset shouldReject posts s,
   fun posts s => postPass_postIds_persist shouldReject posts s⟩

/-- Witness for C1 on a concrete stream that orders one answer before
and one after its parent question's rejection: the early answer is
admitted and survives, the late answer is not admitted. -/
theorem C1_witness :
    (postStep (fun p => p.Tags = "bad") ⟨{1}, {1}, 0⟩ ⟨1, 1, 0, "", "bad", ""⟩
      = ⟨∅, ∅, 0⟩) ∧
    (postStep (fun p => p.Tags = "bad") ⟨{1}, {1}, 0⟩ ⟨6, 2, 1, "", "", ""⟩
      = ⟨{6, 1}, {1}, 1⟩) ∧
    (postStep (fun p => p.Tags = "bad") ⟨∅, ∅, 0⟩ ⟨7, 2, 1, "", "", ""⟩
      = ⟨∅, ∅, 0⟩) ∧
    (6 : Int) ∈ (postPass (fun p => p.Tags = "bad") ⟨{6, 1}, {1}, 1⟩
      [⟨1, 1, 0, "", "bad", ""⟩, ⟨7, 2, 1, "", "", ""⟩]).postIds := by
  have h := C1_post_pass_rejection_and_admission
    (fun p : Post => p.Tags = "bad")
  refine ⟨?_, ?_, ?_, ?_⟩
  · have := h.1 ⟨{1}, {1}, 0⟩ ⟨1, 1, 0, "", "bad", ""⟩
      (by decide) (by decide) (by decide)
    rw [this]; decide
  · have := h.2.1 ⟨{1}, {1}, 0⟩ ⟨6, 2, 1, "", "", ""⟩
      (by decide) (by decide) (by decide)
    rw [this]
  · exact h.2.2.1 ⟨∅, ∅, 0⟩ ⟨7, 2, 1, "", "", ""⟩ (by decide) (by decide)
  · exact h.2.2.2.2 [⟨1, 1, 0, "", "bad", ""⟩, ⟨7, 2, 1, "", "", ""⟩]
      ⟨{6, 1}, {1}, 1⟩ 6 (by decide) (by decide)

/-! ## The `extendedQuestionIds ⊆ postIds` invariant -/

/-- The invariant is preserved by one link-expansion step. -/
lemma linkStep_invariant (seed : Finset Int) (s : ResolveState)
    (l : PostLink) (h : s.extendedQuestionIds ⊆ s.postIds) :
    (linkStep seed s l).extendedQuestionIds ⊆
      (linkStep seed s l).postIds := by
  intro x hx
  rw [mem_linkStep_ext] at hx
  rw [mem_linkStep_postIds]
  exact hx.imp (fun hx1 => h hx1) id

/-- The invariant is preserved by one Post-pass step. -/
lemma postStep_invariant (shouldReject : Post → Bool) (s : ResolveState)
    (p : Post) (h : s.extendedQuestionIds ⊆ s.postIds) :
    (postStep shouldReject s p).extendedQuestionIds ⊆
      (postStep shouldReject s p).postIds := by
  unfold postStep
  by_cases hA : p.PostTypeId = POSTTYPEID_QUESTION ∧
      p.Id ∈ s.extendedQuestionIds ∧ shouldReject p = true
  · simp only [if_pos hA]
    split_ifs with hB
    · intro x hx
      exact Finset.mem_insert_of_mem
        (Finset.mem_erase_of_ne_of_mem (Finset.ne_of_mem_erase hx)
          (h (Finset.mem_of_mem_erase hx)))
    · intro x hx
      exact Finset.mem_erase_of_ne_of_mem (Finset.ne_of_mem_erase hx)
        (h (Finset.mem_of_mem_erase hx))
  · simp only [if_neg hA]
    split_ifs with hB
    · intro x hx
      exact Finset.mem_insert_of_mem (h hx)
    · exact h

lemma linkPass_invariant (seed : Finset Int) (links : List PostLink) :
    ∀ s : ResolveState, s.extendedQuestionIds ⊆ s.postIds →
      (linkPass seed s links).extendedQuestionIds ⊆
        (linkPass seed s links).postIds := by
  induction links with
  | nil => intro s h; exact h
  | cons l ls ih =>
    intro s h
    exact ih (linkStep seed s l) (linkStep_invariant seed s l h)

lemma postPass_invariant (shouldReject : Post → Bool)
    (posts : List Post) :
    ∀ s : ResolveState, s.extendedQuestionIds ⊆ s.postIds →
      (postPass shouldReject s posts).extendedQuestionIds ⊆
        (postPass shouldReject s posts).postIds := by
  induction posts with
  | nil => intro s h; exact h
  | cons p ps ih =>
    intro s h
    exact ih (postStep shouldReject s p)
      (postStep_invariant shouldReject s p h)

/-- C9.  `extendedQuestionIds ⊆ postIds` holds after every record of
both passes and in the returned result: both sets start as the seed,
each step of either pass preserves the inclusion (link expansion
inserts into both sets together, question rejection erases from both
together, answer admission only inserts into `postIds`), and hence the
`extendedQuestionIds` output of `getAllPostIds` is contained in its
`postIds` output. -/
theorem C9_extended_subset_postIds_invariant :
    (∀ (seed : Finset Int) (s : ResolveState) (l : PostLink),
      s.extendedQuestionIds ⊆ s.postIds →
      (linkStep seed s l).extendedQuestionIds ⊆
        (linkStep seed s l).postIds) ∧
    (∀ (shouldReject : Post → Bool) (s : ResolveState) (p : Post),
      s.extendedQuestionIds ⊆ s.postIds →
      (postStep shouldReject s p).extendedQuestionIds ⊆
        (postStep shouldReject s p).postIds) ∧
    (∀ (seed : Finset Int) (links : List PostLink) (posts : List Post)
      (shouldReject : Post → Bool),
      (getAllPostIds seed links posts shouldReject).2.2 ⊆
        (getAllPostIds seed links posts shouldReject).1) := by
  refine ⟨linkStep_invariant, postStep_invariant, ?_⟩
  intro seed links posts shouldReject
  unfold getAllPostIds
  apply postPass_invariant
  have h := linkPass_invariant seed links ⟨seed, seed, 0⟩
    (Finset.Subset.refl seed)
  exact h

/-- Witness for C9 at a concrete state, link, post and resolver run. -/
theorem C9_witness :
    ((linkStep {1} ⟨{1, 2}, {1}, 0⟩ ⟨5, 1⟩).extendedQuestionIds ⊆
      (linkStep {1} ⟨{1, 2}, {1}, 0⟩ ⟨5, 1⟩).postIds) ∧
    ((postStep (fun _ => true) ⟨{1, 2}, {1}, 0⟩
        ⟨1, 1, 0, "", "", ""⟩).extendedQuestionIds ⊆
      (postStep (fun _ => true) ⟨{1, 2}, {1}, 0⟩
        ⟨1, 1, 0, "", "", ""⟩).postIds) ∧
    ((getAllPostIds {1} [⟨5, 1⟩] [⟨6, 2, 1, "", "", ""⟩]
        (fun _ => false)).2.2 ⊆
      (getAllPostIds {1} [⟨5, 1⟩] [⟨6, 2, 1, "", "", ""⟩]
        (fun _ => false)).1) :=
  ⟨C9_extended_subset_postIds_invariant.1 {1} ⟨{1, 2}, {1}, 0⟩ ⟨5, 1⟩
      (by decide),
   C9_extended_subset_postIds_invariant.2.1 (fun _ => true)
      ⟨{1, 2}, {1}, 0⟩ ⟨1, 1, 0, "", "", ""⟩ (by decide),
   C9_extended_subset_postIds_invariant.2.2 {1} [⟨5, 1⟩]
      [⟨6, 2, 1, "", "", ""⟩] (fun _ => false)⟩

/-! ## C4: the return value of `extendAnswersFromQuestions` -/

/-- A concrete sink: question 1 with two stored answers 6 and 8. -/
def extendSink : List StoredPost :=
  [⟨1, 1, 0, "tag", 5, "T", ""⟩, ⟨6, 2, 1, "", 0, "", ""⟩,
   ⟨8, 2, 1, "", 0, "", ""⟩]

/-- C4.  The claim says `extendAnswersFromQuestions` returns the total
number of answers extended; the code accumulates that total in the
local `totalHits` (used only by the progress callback) and instead
returns `Promise.all(promiseBatch)`, whose resolved value is the array
of the final batch's `.then` results (each `undefined`).  On a sink
where question 1 has two answers and the id list is `[1]`, the total
of answers extended is 2, while the resolved value is a one-element
array of `undefined` — not the total under any reading. -/
theorem C4_return_value_is_not_total :
    (extendAllQuestions extendSink [1]).1 = 2 ∧
    extendAnswersResolvedValue [1] = [()] ∧
    (extendAnswersResolvedValue [1]).length ≠
      (extendAllQuestions extendSink [1]).1 := by
  have htake : (extendSink.filter
      (fun d => decide (d.ParentId = (1 : Int)))).take 1000 =
      [⟨6, 2, 1, "", 0, "", ""⟩, ⟨8, 2, 1, "", 0, "", ""⟩] := by
    have hfil : extendSink.filter
        (fun d => decide (d.ParentId = (1 : Int))) =
        [⟨6, 2, 1, "", 0, "", ""⟩, ⟨8, 2, 1, "", 0, "", ""⟩] := by decide
    rw [hfil]
    exact List.take_of_length_le (by norm_num)
  have hext : (extendId extendSink 1).1 = 2 := by
    rw [extendId, htake]
    decide
  have htot : (extendAllQuestions extendSink [1]).1 = 2 := by
    have hfold : (extendAllQuestions extendSink [1]).1 =
        0 + (extendId extendSink 1).1 := rfl
    rw [hfold, hext]
  refine ⟨htot, rfl, ?_⟩
  rw [htot]
  decide

/-! ## C6: per-record error handling of the index loader -/

/-- True when the sink write succeeds on this record. -/
def putOk {α : Type} (put : α → Except String Unit) (r : α) : Bool :=
  match put r with
  | Except.ok _ => true
  | Except.error _ => false

/-- The log entry a record produces, if any: a failing write is logged
with the offending record unless the error is of the silently skipped
"Invalid Id" class. -/
def loggedEntry {α : Type} (put : α → Except String Unit) (r : α) :
    Option (α × String) :=
  match put r with
  | Except.ok _ => none
  | Except.error msg =>
    if strStartsWith msg "Invalid Id" then none else some (r, msg)

/-- Characterisation of the `indexFileStep` fold from an arbitrary
state. -/
lemma indexFileFold_char {α : Type} (put : α → Except String Unit)
    (rows : List α) :
    ∀ s : IndexState α,
      (rows.foldl (indexFileStep put) s).written =
        s.written ++ rows.filter (putOk put) ∧
      (rows.foldl (indexFileStep put) s).logged =
        s.logged ++ rows.filterMap (loggedEntry put) := by
  induction rows with
  | nil => intro s; simp
  | cons r rs ih =>
    intro s
    rw [List.foldl_cons]
    obtain ⟨ih1, ih2⟩ := ih (indexFileStep put s r)
    constructor
    · rw [ih1]
      unfold indexFileStep putOk
      rcases hput : put r with u | msg <;>
        simp [hput, List.filter_cons]
      split_ifs <;> simp
    · rw [ih2]
      unfold indexFileStep loggedEntry
      rcases hput : put r with u | msg <;>
        simp [hput, List.filterMap_cons]
      split_ifs <;> simp

/-- Characterisation of `indexFile`'s write pass: the records written
are exactly those whose write succeeds and the records logged are
exactly the failing ones outside the "Invalid Id" class, paired with
their error message, in stream order — so an "Invalid Id" failure is
silently skipped (it appears in neither list), every other failure is
logged with the offending record, and no failure stops the processing
of the remaining records (the pass over a concatenation is the
concatenation of the passes). -/
lemma indexFilePass_spec {α : Type}
    (put : α → Except String Unit) (rows : List α) :
    ((indexFilePass put rows).written = rows.filter (putOk put) ∧
     (indexFilePass put rows).logged =
       rows.filterMap (loggedEntry put)) ∧
    (∀ rows2 : List α,
      (indexFilePass put (rows ++ rows2)).written =
        (indexFilePass put rows).written ++
          (indexFilePass put rows2).written ∧
      (indexFilePass put (rows ++ rows2)).logged =
        (indexFilePass put rows).logged ++
          (indexFilePass put rows2).logged) ∧
    (∀ r ∈ rows, ∀ msg : String, put r = Except.error msg →
      strStartsWith msg "Invalid Id" = true →
      r ∉ (indexFilePass put rows).written ∧
      ∀ m2 : String, (r, m2) ∉ (indexFilePass put rows).logged) := by
  have hchar := indexFileFold_char put rows (⟨[], []⟩ : IndexState α)
  have hw : (indexFilePass put rows).written = rows.filter (putOk put) := by
    rw [indexFilePass, hchar.1]; simp
  have hl : (indexFilePass put rows).logged =
      rows.filterMap (loggedEntry put) := by
    rw [indexFilePass, hchar.2]; simp
  refine ⟨⟨hw, hl⟩, ?_, ?_⟩
  · intro rows2
    have h12w := (indexFileFold_char put (rows ++ rows2)
      (⟨[], []⟩ : IndexState α)).1
    have h12l := (indexFileFold_char put (rows ++ rows2)
      (⟨[], []⟩ : IndexState α)).2
    have h2 := indexFileFold_char put rows2 (⟨[], []⟩ : IndexState α)
    have h2w : (indexFilePass put rows2).written =
        rows2.filter (putOk put) := by
      rw [indexFilePass, h2.1]; simp
    have h2l : (indexFilePass put rows2).logged =
        rows2.filterMap (loggedEntry put) := by
      rw [indexFilePass, h2.2]; simp
    constructor
    · rw [indexFilePass, h12w, hw, h2w]
      simp [List.filter_append]
    · rw [indexFilePass, h12l, hl, h2l]
      simp [List.filterMap_append]
  · intro r _ msg hmsg hinv
    constructor
    · rw [hw]
      intro hmem
      have := List.of_mem_filter hmem
      rw [putOk, hmsg] at this
      exact Bool.noConfusion this
    · intro m2
      rw [hl]
      intro hmem
      obtain ⟨r', hr', hsome⟩ := List.mem_filterMap.mp hmem
      cases hput : put r' with
      | ok u => simp [loggedEntry, hput] at hsome
      | error msg2 =>
        simp [loggedEntry, hput] at hsome
        obtain ⟨hstart, hr'', hu⟩ := hsome
        rw [hr''] at hput
        have herr : msg2 = msg := Except.error.inj (hput.symm.trans hmsg)
        rw [herr] at hstart
        rw [hinv] at hstart
        exact Bool.noConfusion hstart

/-- C6, counterexample.  The claim covers the loader's streaming write
pass in both `indexFile` and `indexFromPostIds`.  In
`indexFromPostIds` the per-record write at line 270 is returned to the
stream reader with no `try`/`catch`: a failure of the "Invalid Id"
class is not silently skipped there and any other failure is not
caught or logged either — the error propagates verbatim out of the
per-record callback, whose state carries no log at all.
(`indexFile`'s callback, evaluated on the same failing writes, does
implement the claimed skip/log behaviour.) -/
theorem C6_counterexample :
    (indexFromPostIdsStep {1} none
      (fun _ => Except.error "Invalid Id -1") ⟨0, ∅⟩ ⟨1, 7, 0⟩).2 =
      Except.error "Invalid Id -1" ∧
    (indexFromPostIdsStep {1} none
      (fun _ => Except.error "conn reset") ⟨0, ∅⟩ ⟨1, 7, 0⟩).2 =
      Except.error "conn reset" ∧
    indexFileStep (fun _ : SePostRow => Except.error "Invalid Id -1")
      ⟨[], []⟩ ⟨1, 7, 0⟩ = ⟨[], []⟩ ∧
    (indexFileStep (fun _ : SePostRow => Except.error "conn reset")
      ⟨[], []⟩ ⟨1, 7, 0⟩).logged = [(⟨1, 7, 0⟩, "conn reset")] :=
  ⟨rfl, rfl, rfl, rfl⟩

/-- C6, amended.  The claimed per-record handling — "Invalid Id"
failures silently skipped with no log output, any other failure caught
and logged together with the offending record, no failure stopping the
rest of the stream — is the behaviour of `indexFile`'s write pass
(lines 78-94), characterised by the first conjunct.
`indexFromPostIds`'s own pass (lines 254-287) has no such handling:
its callback skips rows outside `postIds` and otherwise hands the sink
write's result — success or error — verbatim to the external stream
reader, with no "Invalid Id" distinction and no logging (second
conjunct). -/
theorem C6_error_handling_amended :
    (∀ (α : Type) (put : α → Except String Unit) (rows : List α),
      ((indexFilePass put rows).written = rows.filter (putOk put) ∧
       (indexFilePass put rows).logged =
         rows.filterMap (loggedEntry put)) ∧
      (∀ rows2 : List α,
        (indexFilePass put (rows ++ rows2)).written =
          (indexFilePass put rows).written ++
            (indexFilePass put rows2).written ∧
        (indexFilePass put (rows ++ rows2)).logged =
          (indexFilePass put rows).logged ++
            (indexFilePass put rows2).logged) ∧
      (∀ r ∈ rows, ∀ msg : String, put r = Except.error msg →
        strStartsWith msg "Invalid Id" = true →
        r ∉ (indexFilePass put rows).written ∧
        ∀ m2 : String, (r, m2) ∉ (indexFilePass put rows).logged)) ∧
    (∀ (postIds : Finset Int) (vt : Option (Int → Option Int))
      (put : SePostRow → Except String Unit) (s : LoadState)
      (row : SePostRow),
      (row.Id ∈ postIds →
        (indexFromPostIdsStep postIds vt put s row).2 =
          (put (attachVoteCount vt row)).map some) ∧
      (row.Id ∉ postIds →
        indexFromPostIdsStep postIds vt put s row =
          (s, Except.ok none))) := by
  refine ⟨fun α put rows => indexFilePass_spec put rows, ?_⟩
  intro postIds vt put s row
  constructor
  · intro h
    unfold indexFromPostIdsStep
    rw [if_pos h]
  · intro h
    unfold indexFromPostIdsStep
    rw [if_neg h]

/-- Witness for C6 (amended): a stream with one good record, one
"Invalid Id" failure and one other failure through `indexFile`'s pass,
and a failing write propagating verbatim out of `indexFromPostIds`'s
callback. -/
theorem C6_amended_witness :
    (2 : Int) ∉ (indexFilePass
      (fun n : Int => if n = 1 then Except.ok () else
        if n = 2 then Except.error "Invalid Id -1" else
          Except.error "conn reset") [1, 2, 3]).written ∧
    ((2 : Int), "conn reset") ∉ (indexFilePass
      (fun n : Int => if n = 1 then Except.ok () else
        if n = 2 then Except.error "Invalid Id -1" else
          Except.error "conn reset") [1, 2, 3]).logged ∧
    (indexFromPostIdsStep {1} none
      (fun _ => Except.error "Invalid Id -1") ⟨0, ∅⟩ ⟨1, 7, 0⟩).2 =
      Except.error "Invalid Id -1" := by
  have h := (C6_error_handling_amended.1 Int
    (fun n : Int => if n = 1 then Except.ok () else
      if n = 2 then Except.error "Invalid Id -1" else
        Except.error "conn reset") [1, 2, 3]).2.2 2 (by decide)
    "Invalid Id -1" (by rfl) (by rfl)
  have h2 := (C6_error_handling_amended.2 {1} none
    (fun _ => Except.error "Invalid Id -1") ⟨0, ∅⟩ ⟨1, 7, 0⟩).1
    (by decide)
  exact ⟨h.1, h.2 "conn reset", h2.trans rfl⟩

/-! ## Pure evaluation of the matcher

When both external libraries are total (`pureLibs`), the `Except`
computations of the matcher always succeed and compute the pure values
below. -/

lemma mapM_ok (f : String → String) (l : List String) :
    l.mapM (fun s => (Except.ok (f s) : Except String String)) =
      Except.ok (l.map f) := by
  induction l with
  | nil => rfl
  | cons a l ih => rw [List.mapM_cons, ih]; rfl

lemma foldlM_ok {β γ : Type} (g : γ → β → γ) (l : List β) :
    ∀ init : γ,
      l.foldlM (fun s b => (Except.ok (g s b) : Except String γ)) init =
        Except.ok (l.foldl g init) := by
  induction l with
  | nil => intro init; rfl
  | cons b l ih =>
    intro init
    rw [List.foldlM_cons]
    show l.foldlM (fun s b => (Except.ok (g s b) : Except String γ))
      (g init b) = Except.ok (List.foldl g init (b :: l))
    rw [ih]
    rfl

/-- The value `stemmedWords` computes when neither library throws. -/
def stemmedWordsPure (stem : String → String) (text : String) :
    Finset String :=
  let wordArray := (splitTokens text).map stem
  let wordSet := wordArray.foldl (fun s w => insert w s) (∅ : Finset String)
  wordArray.foldl (fun s w =>
    if w.data.contains (Char.ofNat 45) then
      (splitChars w (fun c => c = Char.ofNat 45)).foldl
        (fun s sub => insert (stem sub) s) s
    else s) wordSet

lemma stemmedWords_pure (h2p stem : String → String) (text : String) :
    stemmedWords (pureLibs h2p stem) text =
      Except.ok (stemmedWordsPure stem text) := by
  unfold stemmedWords stemmedWordsPure pureLibs
  rw [mapM_ok]
  have hbody : (fun (s : Finset String) (w : String) =>
      if w.data.contains (Char.ofNat 45) then
        (splitChars w (fun c => c = Char.ofNat 45)).foldlM
          (fun s sub => do
            let st ← (Except.ok (stem sub) : Except String String)
            pure (insert st s)) s
      else pure s) =
      (fun (s : Finset String) (w : String) =>
        (Except.ok (if w.data.contains (Char.ofNat 45) then
          (splitChars w (fun c => c = Char.ofNat 45)).foldl
            (fun s sub => insert (stem sub) s) s
          else s) : Except String (Finset String))) := by
    funext s w
    split_ifs with hc
    · exact foldlM_ok (fun s sub => insert (stem sub) s) _ s
    · rfl
  show (Except.ok ((splitTokens text).map stem) >>= fun wordArray => _) = _
  rw [show ∀ (x : List String)
      (f : List String → Except String (Finset String)),
      (Except.ok x >>= f) = f x from fun _ _ => rfl]
  dsimp only
  rw [hbody, foldlM_ok]
  rfl

/-- The value `matchBody` computes when neither library throws. -/
def matchPure (h2p stem : String → String) (testWords : List String)
    (isAccept : Bool) (p : Post) : Bool :=
  let textBody := p.Body
  let title :=
    if isAccept = false ∧ p.Title = "" ∧ textBody ≠ "" then
      (if textBody.length > 60 then
        String.mk (textBody.data.take 60) ++ "..."
      else textBody)
    else p.Title
  let titleWords :=
    if title ≠ "" then some (stemmedWordsPure stem (h2p title)) else none
  let tagWords :=
    if p.Tags ≠ "" then some (stemmedWordsPure stem p.Tags) else none
  let bodyWords :=
    if isAccept then none
    else if textBody ≠ "" then
      some (stemmedWordsPure stem (h2p textBody))
    else none
  testWords.any (fun word =>
    (titleWords.elim false (fun s => word ∈ s)) ||
    (tagWords.elim false (fun s => word ∈ s)) ||
    (bodyWords.elim false (fun s => word ∈ s)))

lemma pureLibs_h2p (h2p stem : String → String) (x : String) :
    (pureLibs h2p stem).h2p x = Except.ok (h2p x) := rfl

lemma pureLibs_stem (h2p stem : String → String) (x : String) :
    (pureLibs h2p stem).stem x = Except.ok (stem x) := rfl

lemma matchBody_pure (h2p stem : String → String)
    (testWords : List String) (isAccept : Bool) (p : Post) :
    matchBody (pureLibs h2p stem) testWords isAccept p =
      Except.ok (matchPure h2p stem testWords isAccept p) := by
  unfold matchBody matchPure
  simp only [pureLibs_h2p, pureLibs_stem, stemmedWords_pure]
  split_ifs <;> rfl

/-- The matcher itself never fails when the libraries are total, and
computes `matchPure` pointwise. -/
lemma makeDoesMatch_pure (h2p stem : String → String)
    (testString : String) (isAccept : Bool) :
    makeDoesMatch (pureLibs h2p stem) testString isAccept =
      Except.ok (fun p =>
        if testString = "" then isAccept
        else matchPure h2p stem
          ((splitChars (lowerString testString)
            (fun c => c = Char.ofNat 32)).map stem)
          isAccept p) := by
  unfold makeDoesMatch
  split_ifs with h0
  · rfl
  · show ((splitChars (lowerString testString)
      (fun c => c = Char.ofNat 32)).mapM
      (pureLibs h2p stem).stem >>= _) = _
    rw [show (pureLibs h2p stem).stem =
      fun s => (Except.ok (stem s) : Except String String) from rfl]
    rw [mapM_ok]
    rw [show ∀ (x : List String) (f : List String → Except String (Post → Bool)),
      (Except.ok x >>= f) = f x from fun _ _ => rfl]
    congr 1
    funext p
    rw [matchBody_pure]

/-! ## C5: behaviour of the matcher when text processing throws -/

/-- A library bundle whose HTML stripper throws on every input while
the stemmer is total: any document with a non-empty title makes the
matcher body throw. -/
def throwLibs : TextLibs :=
  ⟨fun _ => Except.error "h2p failure", fun s => Except.ok s⟩

/-- The matcher closure that `makeDoesMatch throwLibs "x" false`
returns. -/
def throwMatcher : Post → Bool := fun p =>
  match matchBody throwLibs ["x"] false p with
  | Except.ok b => b
  | Except.error _ => true

/-- C5, counterexample.  For the exclusion configuration the claim is
false: on a question whose text processing throws, the matcher returns
`true` — i.e. the document is treated as *matching* the exclude filter
— and the question-rejection step of the Post pass then removes it
from both sets.  The document is excluded, not accepted. -/
theorem C5_counterexample :
    matchBody throwLibs ["x"] false ⟨1, 1, 0, "t", "", ""⟩ =
      Except.error "h2p failure" ∧
    makeDoesMatch throwLibs "x" false = Except.ok throwMatcher ∧
    throwMatcher ⟨1, 1, 0, "t", "", ""⟩ = true ∧
    (postStep throwMatcher ⟨{1}, {1}, 0⟩
      ⟨1, 1, 0, "t", "", ""⟩).extendedQuestionIds = ∅ ∧
    (postStep throwMatcher ⟨{1}, {1}, 0⟩
      ⟨1, 1, 0, "t", "", ""⟩).postIds = ∅ :=
  ⟨rfl, rfl, rfl, by decide, by decide⟩

/-- C5, amended.  When the internal text processing of a document
throws, the matcher produced by `makeDoesMatch` does not propagate the
exception and returns `true` — the document is treated as *matching*
the query — in both the inclusion and the exclusion configuration.
For an inclusion matcher this accepts the document; for an exclusion
matcher it marks the document as excluded, and a question in
`extendedQuestionIds` whose processing throws is removed from both
resolver sets. -/
theorem C5_matcher_error_returns_true (libs : TextLibs)
    (testString : String) (isAccept : Bool) (tw : List String)
    (m : Post → Bool) (p : Post) (e : String)
    (h0 : testString ≠ "")
    (hmap : (splitChars (lowerString testString)
      (fun c => c = Char.ofNat 32)).mapM libs.stem = Except.ok tw)
    (hmk : makeDoesMatch libs testString isAccept = Except.ok m)
    (herr : matchBody libs tw isAccept p = Except.error e) :
    m p = true ∧
    (∀ s : ResolveState, isAccept = false →
      p.PostTypeId = POSTTYPEID_QUESTION →
      p.Id ∈ s.extendedQuestionIds →
      (postStep m s p).extendedQuestionIds =
        s.extendedQuestionIds.erase p.Id ∧
      (postStep m s p).postIds = s.postIds.erase p.Id) := by
  have hm : m = fun q =>
      match matchBody libs tw isAccept q with
      | Except.ok b => b
      | Except.error _ => true := by
    unfold makeDoesMatch at hmk
    rw [if_neg h0, hmap] at hmk
    exact (Except.ok.inj hmk).symm
  have hmp : m p = true := by
    rw [hm]
    show (match matchBody libs tw isAccept p with
      | Except.ok b => b
      | Except.error _ => true) = true
    rw [herr]
  refine ⟨hmp, ?_⟩
  intro s _ h1 h2
  rw [postStep_reject m s p h1 h2 hmp]
  exact ⟨rfl, rfl⟩

/-- Witness for C5 (amended) at the concrete throwing library. -/
theorem C5_witness :
    throwMatcher ⟨1, 2, 0, "t", "", ""⟩ = true ∧
    (postStep throwMatcher ⟨{2, 3}, {3}, 0⟩
      ⟨3, 1, 0, "t", "", ""⟩).extendedQuestionIds =
      ({3} : Finset Int).erase 3 ∧
    (postStep throwMatcher ⟨{2, 3}, {3}, 0⟩
      ⟨3, 1, 0, "t", "", ""⟩).postIds =
      ({2, 3} : Finset Int).erase 3 := by
  have ha := C5_matcher_error_returns_true throwLibs "x" false ["x"]
    throwMatcher ⟨1, 2, 0, "t", "", ""⟩ "h2p failure"
    (by decide) rfl rfl rfl
  have hb := C5_matcher_error_returns_true throwLibs "x" false ["x"]
    throwMatcher ⟨3, 1, 0, "t", "", ""⟩ "h2p failure"
    (by decide) rfl rfl rfl
  have hq := hb.2 ⟨{2, 3}, {3}, 0⟩ rfl (by decide) (by decide)
  exact ⟨ha.1, hq.1, hq.2⟩

/-! ## C10: empty tokens in the tokenizer -/

lemma runMatcher_ok (m : Post → Bool) (p : Post) :
    runMatcher (Except.ok m) p = m p := rfl

lemma mem_foldl_insert (l : List String) :
    ∀ (init : Finset String) (a : String), a ∈ init ∨ a ∈ l →
      a ∈ l.foldl (fun s w => insert w s) init := by
  induction l with
  | nil =>
    intro init a h
    rcases h with h | h
    · simpa using h
    · simp at h
  | cons w ws ih =>
    intro init a h
    rw [List.foldl_cons]
    apply ih
    rcases h with h | h
    · exact Or.inl (Finset.mem_insert_of_mem h)
    · rcases List.mem_cons.mp h with h | h
      · exact Or.inl (h ▸ Finset.mem_insert_self a init)
      · exact Or.inr h

lemma foldl_superset {β : Type} (g : Finset String → β → Finset String)
    (hg : ∀ s b, s ⊆ g s b) (l : List β) :
    ∀ init : Finset String, init ⊆ l.foldl g init := by
  induction l with
  | nil => intro init; exact Finset.Subset.refl _
  | cons b l ih =>
    intro init
    exact Finset.Subset.trans (hg init b) (ih (g init b))

/-- Every stemmed token of the split is in the computed word set (the
hyphen pass only adds further elements). -/
lemma mem_stemmedWordsPure (stem : String → String) (text tok : String)
    (htok : tok ∈ splitTokens text) :
    stem tok ∈ stemmedWordsPure stem text := by
  unfold stemmedWordsPure
  have hbase : stem tok ∈ ((splitTokens text).map stem).foldl
      (fun s w => insert w s) (∅ : Finset String) :=
    mem_foldl_insert _ _ _ (Or.inr (List.mem_map_of_mem stem htok))
  refine Finset.mem_of_subset (foldl_superset _ ?_ _ _) hbase
  intro s w
  split_ifs with hc
  · exact foldl_superset _ (fun s sub => Finset.subset_insert _ s) _ s
  · exact Finset.Subset.refl s

lemma matchPure_mem_title (h2p stem : String → String) (tw : List String)
    (ia : Bool) (d : Post) (hT : d.Title ≠ "") (w : String) (hw : w ∈ tw)
    (hmem : w ∈ stemmedWordsPure stem (h2p d.Title)) :
    matchPure h2p stem tw ia d = true := by
  simp only [matchPure]
  rw [if_neg (show ¬(ia = false ∧ d.Title = "" ∧ d.Body ≠ "") from
    fun hc => hT hc.2.1)]
  rw [if_pos hT]
  rw [List.any_eq_true]
  exact ⟨w, hw, by simp [hmem]⟩

lemma matchPure_mem_tags (h2p stem : String → String) (tw : List String)
    (ia : Bool) (d : Post) (hTags : d.Tags ≠ "") (w : String)
    (hw : w ∈ tw) (hmem : w ∈ stemmedWordsPure stem d.Tags) :
    matchPure h2p stem tw ia d = true := by
  simp only [matchPure]
  rw [if_pos hTags]
  rw [List.any_eq_true]
  exact ⟨w, hw, by simp [hmem]⟩

/-- C10, counterexample.  A Title with one character outside
`[a-z0-9-]` does not in general put the empty string into the document
word set: splitting only produces an empty token at *adjacent* (or
leading/trailing) separators.  With the double-spaced exclusion query
`"x  y"` (whose word list does contain the empty token) and the
document Title `"a b"` (which contains the out-of-class character
`' '`), the word set is `{"a", "b"}` without `""` and the matcher
returns `false`, refuting the claim that it returns `true` for every
such document. -/
theorem C10_counterexample :
    ((splitChars (lowerString "x  y") (fun c => c = Char.ofNat 32)).map
      stemModel = ["x", "", "y"]) ∧
    (Char.ofNat 32) ∈ "a b".data ∧
    isWordChar (Char.ofNat 32) = false ∧
    "" ∉ stemmedWordsPure stemModel (h2pModel "a b") ∧
    runMatcher (makeDoesMatch (pureLibs h2pModel stemModel) "x  y" false)
      ⟨1, 1, 0, "a b", "", ""⟩ = false :=
  ⟨rfl, by decide, rfl, by decide, by decide⟩

/-- C10, amended.  If the non-empty query string's split on spaces
contains an empty token (two consecutive spaces, or a leading or
trailing space), the query word list contains the empty-string token
(the stemmer maps `""` to `""`); the empty string is a member of the
document word set of a Title or Tags text whenever the split of the
lower-cased text on characters outside `[a-z0-9-]` yields an empty
token (two adjacent such characters, or one at the start or end) — not
for every text merely containing such a character; and for a document
whose Title (after HTML stripping) or Tags has that form, such a
matcher returns `true` (for an exclusion matcher this mass-excludes
all such documents). -/
theorem C10_empty_token_behaviour (h2p stem : String → String)
    (hstem : stem "" = "") :
    (∀ testString : String,
      "" ∈ splitChars (lowerString testString)
        (fun c => c = Char.ofNat 32) →
      "" ∈ (splitChars (lowerString testString)
        (fun c => c = Char.ofNat 32)).map stem) ∧
    (∀ text : String, "" ∈ splitTokens text →
      "" ∈ stemmedWordsPure stem text) ∧
    (∀ (testString : String) (isAccept : Bool) (d : Post),
      testString ≠ "" →
      "" ∈ splitChars (lowerString testString)
        (fun c => c = Char.ofNat 32) →
      d.Title ≠ "" →
      "" ∈ splitTokens (h2p d.Title) →
      runMatcher (makeDoesMatch (pureLibs h2p stem) testString isAccept) d
        = true) ∧
    (∀ (testString : String) (isAccept : Bool) (d : Post),
      testString ≠ "" →
      "" ∈ splitChars (lowerString testString)
        (fun c => c = Char.ofNat 32) →
      d.Tags ≠ "" →
      "" ∈ splitTokens d.Tags →
      runMatcher (makeDoesMatch (pureLibs h2p stem) testString isAccept) d
        = true) := by
  refine ⟨?_, ?_, ?_, ?_⟩
  · intro t ht
    exact hstem ▸ List.mem_map_of_mem stem ht
  · intro text htext
    exact hstem ▸ mem_stemmedWordsPure stem text "" htext
  · intro t ia d ht0 htw hT hsplit
    rw [makeDoesMatch_pure, runMatcher_ok]
    show (if t = "" then ia else matchPure h2p stem
      ((splitChars (lowerString t) (fun c => c = Char.ofNat 32)).map stem)
      ia d) = true
    rw [if_neg ht0]
    exact matchPure_mem_title h2p stem _ ia d hT ""
      (hstem ▸ List.mem_map_of_mem stem htw)
      (hstem ▸ mem_stemmedWordsPure stem (h2p d.Title) "" hsplit)
  · intro t ia d ht0 htw hTags hsplit
    rw [makeDoesMatch_pure, runMatcher_ok]
    show (if t = "" then ia else matchPure h2p stem
      ((splitChars (lowerString t) (fun c => c = Char.ofNat 32)).map stem)
      ia d) = true
    rw [if_neg ht0]
    exact matchPure_mem_tags h2p stem _ ia d hTags ""
      (hstem ▸ List.mem_map_of_mem stem htw)
      (hstem ▸ mem_stemmedWordsPure stem d.Tags "" hsplit)

/-- Witness for C10 (amended): the double-spaced query against a Title
whose `'#'`-and-space pair produces an empty token. -/
theorem C10_witness :
    runMatcher (makeDoesMatch (pureLibs h2pModel stemModel) "x  y" false)
      ⟨1, 1, 0, "c# t", "", ""⟩ = true :=
  (C10_empty_token_behaviour h2pModel stemModel rfl).2.2.1 "x  y" false
    ⟨1, 1, 0, "c# t", "", ""⟩ (by decide) (by decide) (by decide)
    (by decide)

end Seekoff
